import Mathlib

/-!
Shallow embedding of the `datastore` package (a CQL query-construction and
object-mapping layer over the gocql driver) together with proofs about its
query/update builders, statement compilation, entity codec derivation and
result iteration.

Conventions of the embedding:
* Go `interface` values bound into statements are modelled by the
  small inductive `Val`.
* Go maps (`map[string]fieldCodec`, `map[string]interface` and the
  per-type codec cache) are modelled as association lists with
  overwrite-on-insert semantics (`alistGet` / `alistSet`); iteration order of
  a Go map is unspecified, the model fixes insertion order.
* `strings.TrimSpace` / `strings.TrimRight` are modelled on the character
  list underlying a `String`; whitespace is the ASCII whitespace recognised
  by `Char.isWhitespace` (the Go original also trims rarer Unicode spaces,
  which no claim exercises).
* The gocql driver is external: `Run` is modelled as returning either an
  error-only iterator or the exact statement/argument pair handed to the
  driver (`RunResult`), and the row cursor used by `First` is modelled by
  the observable outcomes of its `Next` and `Close` calls (`SessionModel`).
* Errors are modelled by their message strings; functions that in Go return
  `(..., error)` return a tuple whose last component is an `Option String`.
-/

namespace Datastore

/-- A value bound into a statement (Go `interface` argument). -/
inductive Val where
  | int (n : Int)
  | str (s : String)
  deriving DecidableEq

/-- Comparison operators of the filter grammar (Go `operator`). -/
inductive operator where
  | lessThan
  | lessEq
  | equal
  | greaterEq
  | greaterThan
  deriving DecidableEq

/-- A conditional filter on query results (Go `filter`). -/
structure filter where
  FieldName : String
  Op : operator
  Value : Val
  deriving DecidableEq

/-- Sort direction of an order entry (Go `sortDirection`). -/
inductive sortDirection where
  | ascending
  | descending
  deriving DecidableEq

/-- A sort order on query results (Go `order`). -/
structure order where
  FieldName : String
  Direction : sortDirection
  deriving DecidableEq

/-- Model of Go `strings.TrimSpace`: remove leading and trailing whitespace. -/
def TrimSpace (s : String) : String :=
  ⟨((s.data.dropWhile Char.isWhitespace).reverse.dropWhile Char.isWhitespace).reverse⟩

/-- Model of Go `strings.TrimRight`: remove trailing characters of the cutset. -/
def TrimRight (s : String) (cutset : String) : String :=
  ⟨(s.data.reverse.dropWhile (fun c => cutset.data.contains c)).reverse⟩

/-- Association-list lookup, modelling a Go map read (`m[k]` with `ok`). -/
def alistGet {α β : Type} [DecidableEq α] : List (α × β) → α → Option β
  | [], _ => none
  | p :: rest, k => if p.1 = k then some p.2 else alistGet rest k

/-- Association-list insert with overwrite, modelling a Go map write
(`m[k] = v`); a key occurs at most once, new keys go to the end. -/
def alistSet {α β : Type} [DecidableEq α] : List (α × β) → α → β → List (α × β)
  | [], k, v => [(k, v)]
  | p :: rest, k, v => if p.1 = k then (k, v) :: rest else p :: alistSet rest k v

/-- The parsed `cql` tag of a struct field (Go `structTag`). -/
structure structTag where
  name : String
  opts : String
  deriving DecidableEq

/-- A struct field's index (Go `fieldCodec`). -/
structure fieldCodec where
  index : Nat
  deriving DecidableEq

/-- Descriptor of a struct type: how it converts to and from a sequence of
column values (Go `structCodec`). -/
structure structCodec where
  columnFamily : String
  byIndex : List structTag
  byName : List (String × fieldCodec)
  nrDBCols : Nat
  deriving DecidableEq

/-- One field of a reflected struct type: the field's declared name, whether
it is embedded/anonymous, and the raw value of its `cql` tag. -/
structure structField where
  fName : String
  anonymous : Bool
  tag : String
  deriving DecidableEq

/-- A reflected struct type is its ordered field list. -/
abbrev StructType := List structField

/-- The process-wide codec cache (Go `structCodecs` map), passed explicitly. -/
abbrev Cache := List (StructType × structCodec)

/-- Drop the first `n` characters of a string, modelling Go's `s[n:]` (for a
prefix of known length, dropping that many characters removes exactly the
bytes of the prefix). -/
def strDrop (s : String) (n : Nat) : String :=
  ⟨s.data.drop n⟩

/-- Split a tag value at its first comma into name and options, mirroring
`strings.Index(name, ",")` followed by the two slicings. -/
def parseTag (tagStr : String) : String × String :=
  match (tagStr.data.span (fun c => c != ',')).2 with
  | [] => (tagStr, "")
  | _ :: tail => (⟨(tagStr.data.span (fun c => c != ',')).1⟩, ⟨tail⟩)

/-- Intermediate state of the codec-derivation loop: the accumulated
`byIndex`, `byName`, column family name and stored-column count. The loop
index `i` of the Go code equals `byIndex.length` at every step. -/
structure procState where
  byIndex : List structTag
  byName : List (String × fieldCodec)
  columnFamily : String
  nrDBCols : Nat
  deriving DecidableEq

/-- One iteration of the field loop of `getStructCodecLocked`: parse the tag,
default an empty name to the field name for non-anonymous fields, handle the
`ColumnFamily` sentinel (record the table name, then exclude the field with
the `-` marker), and record the field in both mappings. -/
def processField (st : procState) (f : structField) : Except String procState :=
  let p := parseTag f.tag
  let name := if p.1 = "" ∧ f.anonymous = false then f.fName else p.1
  if f.fName = "ColumnFamily" then
    if name = "" ∨ name = "-" then
      .error ("datastore: name " ++ name ++ " not allowed")
    else
      .ok { byIndex := st.byIndex ++ [⟨"-", p.2⟩],
            byName := alistSet st.byName "-" ⟨st.byIndex.length⟩,
            columnFamily := name,
            nrDBCols := st.nrDBCols }
  else
    .ok { byIndex := st.byIndex ++ [⟨name, p.2⟩],
          byName := alistSet st.byName name ⟨st.byIndex.length⟩,
          columnFamily := st.columnFamily,
          nrDBCols := if name = "-" then st.nrDBCols else st.nrDBCols + 1 }

/-- The field loop of `getStructCodecLocked`, with its early error return. -/
def procFields : List structField → procState → Except String procState
  | [], st => .ok st
  | f :: rest, st =>
    match processField st f with
    | .error e => .error e
    | .ok st' => procFields rest st'

/-- Go `getStructCodecLocked`: return the cached codec if present; otherwise
derive one from the field list. On success the codec is cached; on any error
the deferred `delete` removes the provisional entry, so the cache is left
exactly as it was. -/
def getStructCodecLocked (t : StructType) (cache : Cache) :
    Except String structCodec × Cache :=
  match alistGet cache t with
  | some c => (.ok c, cache)
  | none =>
    match procFields t ⟨[], [], "", 0⟩ with
    | .error e => (.error e, cache)
    | .ok st =>
      if st.columnFamily = "" then
        (.error "datastore: ColumnFamily field missing", cache)
      else
        let c : structCodec := ⟨st.columnFamily, st.byIndex, st.byName, st.nrDBCols⟩
        (.ok c, alistSet cache t c)

/-- Go `getStructCodec`: takes the mutex and delegates; with the cache passed
explicitly the locked and unlocked entry points coincide. -/
def getStructCodec (t : StructType) (cache : Cache) :
    Except String structCodec × Cache :=
  getStructCodecLocked t cache

/-- A CQL read query under construction (Go `Query`). The deferred builder
error is the Go `err error` field. -/
structure Query where
  filter : List filter
  order : List order
  projection : List String
  codec : structCodec
  limit : Int
  err : Option String

/-- The Query literal `NewQuery` builds once the codec has been derived:
no filters, no orders, no projection, limit `-1`, no deferred error. -/
def queryFor (codec : structCodec) : Query :=
  ⟨[], [], [], codec, -1, none⟩

/-- Go `NewQuery`: derive the codec for the type, then build the fresh
query; a codec-derivation error is returned directly. -/
def NewQuery (t : StructType) (cache : Cache) : Except String Query × Cache :=
  match getStructCodec t cache with
  | (.error e, cache') => (.error e, cache')
  | (.ok codec, cache') => (.ok (queryFor codec), cache')

/-- The operator switch inside `Filter`: the five recognised tokens; `none`
models the `default` branch. -/
def parseOp : String → Option operator
  | "<=" => some .lessEq
  | ">=" => some .greaterEq
  | "<" => some .lessThan
  | ">" => some .greaterThan
  | "=" => some .equal
  | _ => none

/-- Go `Query.Filter`: trim the expression, reject the empty string, split
off the trailing operator token (the field name is the expression with the
cutset ` ><=!` trimmed from the right), and either append the parsed filter
or record a deferred error for an unrecognised operator. -/
def Query.Filter (q : Query) (filterStr₀ : String) (value : Val) : Query :=
  let filterStr := TrimSpace filterStr₀
  if filterStr.length < 1 then
    { q with err := some ("datastore: invalid filter: " ++ filterStr) }
  else
    let fieldName := TrimRight filterStr " ><=!"
    let opStr := TrimSpace (strDrop filterStr fieldName.length)
    match parseOp opStr with
    | some op => { q with filter := q.filter ++ [⟨fieldName, op, value⟩] }
    | none =>
      { q with err := some ("datastore: invalid operator " ++ opStr ++
          " in filter " ++ filterStr) }

/-- Go `Query.Order`: a leading `-` selects descending and is stripped, a
leading `+` is a deferred error, and an empty field name after trimming is a
deferred error. -/
def Query.Order (q : Query) (fieldName₀ : String) : Query :=
  let fieldName := TrimSpace fieldName₀
  match fieldName.data with
  | '-' :: _ =>
    let fn := TrimSpace (strDrop fieldName 1)
    if fn.length = 0 then { q with err := some "datastore: empty order" }
    else { q with order := q.order ++ [⟨fn, .descending⟩] }
  | '+' :: _ =>
    { q with err := some ("datastore: invalid order: " ++ fieldName) }
  | _ =>
    if fieldName.length = 0 then { q with err := some "datastore: empty order" }
    else { q with order := q.order ++ [⟨fieldName, .ascending⟩] }

/-- Go `Query.Project`: replace the projection list verbatim. -/
def Query.Project (q : Query) (fieldNames : List String) : Query :=
  { q with projection := fieldNames }

/-- Go `Query.Limit`: a value outside the signed 32-bit range is a deferred
error; otherwise the limit is stored (negative means unlimited). -/
def Query.Limit (q : Query) (limit : Int) : Query :=
  if limit < -(2 ^ 31) ∨ limit > 2 ^ 31 - 1 then
    { q with err := some "datastore: query limit overflow" }
  else
    { q with limit := limit }

/-- Go `filterOpMapping`: render an operator as its CQL token. -/
def filterOpMapping : operator → String
  | .lessEq => "<="
  | .greaterEq => ">="
  | .lessThan => "<"
  | .greaterThan => ">"
  | .equal => "="

/-- The loop of `getWhereClause`: render each filter as `field op ?` and
collect its bound value, stopping with an error at the first field name the
codec does not map. -/
def whereLoop (codec : structCodec) :
    List filter → List String → List Val → List String × List Val × Option String
  | [], conds, args => (conds, args, none)
  | f :: rest, conds, args =>
    match alistGet codec.byName f.FieldName with
    | none => (conds, args, some ("query : fieldname " ++ f.FieldName ++ " not found"))
    | some _ =>
      whereLoop codec rest
        (conds ++ [f.FieldName ++ " " ++ filterOpMapping f.Op ++ " ?"])
        (args ++ [f.Value])

/-- Go `getWhereClause`: empty filter list yields no clause; otherwise join
the rendered conditions with ` AND ` under a ` WHERE ` prefix, or surface the
first unknown-field error (the Go error path returns the zero-value `cond`
together with the arguments collected so far). -/
def getWhereClause (codec : structCodec) (filters : List filter) :
    String × List Val × Option String :=
  if filters.length ≤ 0 then ("", [], none)
  else
    match whereLoop codec filters [] [] with
    | (_, args, some e) => ("", args, some e)
    | (conds, args, none) => (" WHERE " ++ String.intercalate " AND " conds, args, none)

/-- The loop of `structCodec.getColumnStr`: collect, in declaration order,
the column names of `byIndex` whose name is not the `-` exclusion marker. -/
def colLoop : List structTag → List String
  | [] => []
  | t :: rest => if t.name = "-" then colLoop rest else t.name :: colLoop rest

/-- Go `structCodec.getColumnStr`: the comma-joined non-excluded columns. -/
def structCodec.getColumnStr (c : structCodec) : String :=
  String.intercalate "," (colLoop c.byIndex)

/-- Go `Query.toCQL`: build `SELECT <cols> FROM <table>`, append the WHERE
clause (or propagate its unknown-field error with an empty statement), then
append ` LIMIT <n>` when the stored limit is positive. Order entries are
accepted but never rendered. The deferred `q.err` field is not consulted. -/
def Query.toCQL (q : Query) : String × List Val × Option String :=
  let columnStr :=
    if q.projection.length > 0 then String.intercalate "," q.projection
    else q.codec.getColumnStr
  let cql := "SELECT " ++ columnStr ++ " FROM " ++ q.codec.columnFamily
  match getWhereClause q.codec q.filter with
  | (_, whereArgs, some e) => ("", whereArgs, some e)
  | (whereClause, whereArgs, none) =>
    let cql := cql ++ whereClause
    let cql := if q.limit > 0 then cql ++ " LIMIT " ++ toString q.limit else cql
    (cql, whereArgs, none)

/-- Observable outcome of `Query.Run` at the driver seam: either an iterator
that carries only the compile error, or the statement and arguments handed
to `session.Query`. -/
inductive RunResult where
  | fail (err : String)
  | handed (cql : String) (args : List Val)
  deriving DecidableEq

/-- Go `Query.Run`: compile; on error return an `Iterator` holding only the
error, otherwise hand the statement and arguments to the driver. -/
def Query.Run (q : Query) : RunResult :=
  match q.toCQL with
  | (_, _, some e) => .fail e
  | (cql, args, none) => .handed cql args

/-- Model of the driver-side behaviour `First` observes: the error reported
by the row pull (`Iterator.Next`, i.e. `LoadEntity`) and the error reported
by `Iterator.Close`. -/
structure SessionModel where
  nextErr : Option String
  closeErr : Option String
  deriving DecidableEq

/-- Go `Query.First`: run the query and return a compile error immediately;
otherwise call `iter.Next(dst)` — discarding its result exactly as the Go
statement `iter.Next(dst)` does — and return whatever `iter.Close()`
reports. -/
def Query.First (q : Query) (s : SessionModel) : Option String :=
  match q.Run with
  | .fail e => some e
  | .handed _ _ =>
    let _nextResult := s.nextErr
    s.closeErr

/-- A CQL update statement under construction (Go `UpdateQuery`). -/
structure UpdateQuery where
  filter : List filter
  ttl : Int
  updates : List (String × Val)
  codec : structCodec
  err : Option String

/-- The UpdateQuery literal `NewUpdateQuery` builds once the codec has been
derived: no filters, zero TTL, an empty assignment map, no deferred error. -/
def updateQueryFor (codec : structCodec) : UpdateQuery :=
  ⟨[], 0, [], codec, none⟩

/-- Go `UpdateQuery.Filter`: identical parsing and deferred-error behaviour
to `Query.Filter`. -/
def UpdateQuery.Filter (q : UpdateQuery) (filterStr₀ : String) (value : Val) :
    UpdateQuery :=
  let filterStr := TrimSpace filterStr₀
  if filterStr.length < 1 then
    { q with err := some ("datastore: invalid filter: " ++ filterStr) }
  else
    let fieldName := TrimRight filterStr " ><=!"
    let opStr := TrimSpace (strDrop filterStr fieldName.length)
    match parseOp opStr with
    | some op => { q with filter := q.filter ++ [⟨fieldName, op, value⟩] }
    | none =>
      { q with err := some ("datastore: invalid operator " ++ opStr ++
          " in filter " ++ filterStr) }

/-- Go `UpdateQuery.TTL`: store the time-to-live (no validation). -/
def UpdateQuery.TTL (q : UpdateQuery) (ttl : Int) : UpdateQuery :=
  { q with ttl := ttl }

/-- Go `UpdateQuery.Update`: record the assignment in the map, overwriting a
previous assignment to the same column. -/
def UpdateQuery.Update (q : UpdateQuery) (fieldName : String) (fieldVal : Val) :
    UpdateQuery :=
  { q with updates := alistSet q.updates fieldName fieldVal }

/-- Go `UpdateQuery.toCQL`. When a positive TTL is set the Go source runs
`fmt.Sprint(" USING TTL %d ", q.ttl)`; `fmt.Sprint` (not `Sprintf`) simply
concatenates its operands, inserting a space only between two adjacent
non-string operands, so the format verb stays literal and the TTL value is
appended after it. The assignments render as `col = ?` joined by `, `, the
shared `getWhereClause` result follows, and its error propagates with an
empty statement. The deferred `q.err` field is not consulted. -/
def UpdateQuery.toCQL (q : UpdateQuery) : String × List Val × Option String :=
  let usingTTL := if q.ttl > 0 then " USING TTL %d " ++ toString q.ttl else " "
  let cql := "UPDATE " ++ q.codec.columnFamily ++ usingTTL ++ "SET "
  let cql :=
    if q.updates.length > 0 then
      cql ++ String.intercalate ", " (q.updates.map (fun p => p.1 ++ " = ?"))
    else cql
  let args := if q.updates.length > 0 then q.updates.map (fun p => p.2) else []
  match getWhereClause q.codec q.filter with
  | (_, whereArgs, some e) => ("", whereArgs, some e)
  | (whereClause, whereArgs, none) => (cql ++ whereClause, args ++ whereArgs, none)

/-- The column-load-saver: a descriptor bound to one record instance; the
record's field values are modelled as a function from field index to value
(Go `cls.v.Field(i).Interface()`). -/
structure structCLS where
  v : Nat → Val
  codec : structCodec

/-- The field index `byName` maps a column name to, with the Go zero value
`fieldCodec` (index `0`) for a name the map does not contain — this models
the unchecked map access `cls.codec.byName[v.name].index` in `save`. -/
def byNameIndex (c : structCodec) (n : String) : Nat :=
  match alistGet c.byName n with
  | some fc => fc.index
  | none => 0

/-- The loop of `structCLS.save`: one pass over `byIndex` that, skipping the
`-` exclusion marker, emits one `?` placeholder and reads the value of the
field `byName` maps the column name to. -/
def saveLoop (cls : structCLS) : List structTag → List String × List Val
  | [] => ([], [])
  | t :: rest =>
    let acc := saveLoop cls rest
    if t.name = "-" then acc
    else ("?" :: acc.1, cls.v (byNameIndex cls.codec t.name) :: acc.2)

/-- Go `structCLS.save`: assemble the INSERT statement from `getColumnStr`
and the placeholder loop, and the bound values from the same loop; the pair
is what `session.Query(queryStr, vals...)` receives at the driver seam. -/
def structCLS.save (cls : structCLS) : String × List Val :=
  let acc := saveLoop cls cls.codec.byIndex
  ("INSERT INTO " ++ cls.codec.columnFamily ++ " (" ++ cls.codec.getColumnStr ++
     ") VALUES (" ++ String.intercalate "," acc.1 ++ ")",
   acc.2)

/-- The `Tweet` struct of the README example: the `ColumnFamily` sentinel
tagged `cql:"tweet"` and three data columns. -/
def tweetType : StructType :=
  [⟨"ColumnFamily", false, "tweet"⟩,
   ⟨"Timeline", false, "timeline,"⟩,
   ⟨"Id", false, "id,"⟩,
   ⟨"TextVal", false, "text,"⟩]

/-- The codec `getStructCodecLocked` derives for `tweetType`. -/
def tweetCodec : structCodec :=
  ⟨"tweet",
   [⟨"-", ""⟩, ⟨"timeline", ""⟩, ⟨"id", ""⟩, ⟨"text", ""⟩],
   [("-", ⟨0⟩), ("timeline", ⟨1⟩), ("id", ⟨2⟩), ("text", ⟨3⟩)],
   3⟩

example : getStructCodecLocked tweetType [] =
    (.ok tweetCodec, [(tweetType, tweetCodec)]) := by rfl

example : (queryFor tweetCodec).toCQL =
    ("SELECT timeline,id,text FROM tweet", [], none) := by decide

example : ((queryFor tweetCodec).Filter "age >=" (.int 30)).filter =
    [⟨"age", .greaterEq, .int 30⟩] := by decide

example : (((updateQueryFor tweetCodec).Update "text" (.str "hi")).TTL 5).toCQL =
    ("UPDATE tweet USING TTL %d 5SET text = ?", [.str "hi"], none) := by decide

example : ((queryFor tweetCodec).Filter "unknown_field =" (.int 1)).toCQL =
    ("", [], some "query : fieldname unknown_field not found") := by decide

example : ((queryFor tweetCodec).Filter "" (.int 1)).toCQL =
    ("SELECT timeline,id,text FROM tweet", [], none) := by decide

/-- C1: the claim states that compiling a builder carrying a deferred error
surfaces that error before producing any statement text. The code does the
opposite: neither `Query.toCQL` nor `UpdateQuery.toCQL` ever reads the
stored `err` field (compilation is invariant under changing it), and a
builder whose `Filter("")` call recorded a deferred error still compiles to
a complete statement with a nil error. -/
theorem compile_ignores_deferred_error :
    (∀ (q : Query) (e : Option String),
      Query.toCQL { q with err := e } = q.toCQL) ∧
    (∀ (uq : UpdateQuery) (e : Option String),
      UpdateQuery.toCQL { uq with err := e } = uq.toCQL) ∧
    ((queryFor tweetCodec).Filter "" (Val.int 1)).err =
      some "datastore: invalid filter: " ∧
    ((queryFor tweetCodec).Filter "" (Val.int 1)).toCQL =
      ("SELECT timeline,id,text FROM tweet", [], none) ∧
    ((updateQueryFor tweetCodec).Filter "" (Val.int 1)).err =
      some "datastore: invalid filter: " ∧
    ((updateQueryFor tweetCodec).Filter "" (Val.int 1)).toCQL =
      ("UPDATE tweet SET ", [], none) :=
  ⟨fun _ _ => rfl, fun _ _ => rfl, by decide, by decide, by decide, by decide⟩

/-- C2: the claim states that a TTL `t > 0` renders the text between the
table name and `SET` as exactly ` USING TTL <t> `. Because the source calls
`fmt.Sprint` with a format string, the verb `%d` is emitted literally and
the TTL value is concatenated after it: with TTL 5 the compiled statement is
`UPDATE tweet USING TTL %d 5SET text = ?`, not the claimed
`UPDATE tweet USING TTL 5 SET text = ?`. -/
theorem update_ttl_emits_literal_verb :
    (((updateQueryFor tweetCodec).Update "text" (Val.str "hi")).TTL 5).toCQL =
      ("UPDATE tweet USING TTL %d 5SET text = ?", [Val.str "hi"], none) ∧
    (((updateQueryFor tweetCodec).Update "text" (Val.str "hi")).TTL 5).toCQL.1 ≠
      "UPDATE tweet USING TTL 5 SET text = ?" := by
  constructor
  · decide
  · decide

/-- C3 counterexample: on a query that compiles successfully, a session
whose row pull (`Next`) reports an error while `Close` reports none makes
`First` return `none` — the `Next` error is dropped, contradicting the
claim that no error from either step is dropped. -/
theorem first_swallows_next_error :
    (queryFor tweetCodec).toCQL.2.2 = none ∧
    (queryFor tweetCodec).First ⟨some "datastore: load failed", none⟩ = none := by
  constructor
  · decide
  · decide

/-- C3 (amended): `First` propagates a compile error; otherwise it pulls one
row via `Next`, discards whatever `Next` returned, and returns exactly what
`Close` reports. -/
theorem first_returns_close_error (q : Query) (s : SessionModel) :
    (∀ e, q.toCQL.2.2 = some e → q.First s = some e) ∧
    (q.toCQL.2.2 = none → q.First s = s.closeErr) := by
  rcases hq : q.toCQL with ⟨cql, args, err⟩
  cases err with
  | some e0 =>
    constructor
    · intro e he
      simp only [Option.some.injEq] at he
      simp [Query.First, Query.Run, hq, he]
    · intro hnone
      simp at hnone
  | none =>
    constructor
    · intro e he
      simp at he
    · intro _
      simp [Query.First, Query.Run, hq]

/-- C3 witness: on the README query and a session whose `Close` fails,
`First` returns the close error. -/
theorem first_returns_close_error_witness :
    (queryFor tweetCodec).toCQL.2.2 = none ∧
    (queryFor tweetCodec).First ⟨none, some "connection closed"⟩ =
      some "connection closed" :=
  ⟨by decide,
   (first_returns_close_error (queryFor tweetCodec)
     ⟨none, some "connection closed"⟩).2 (by decide)⟩

/-- C8: `Limit 0` records no deferred error, stores limit `0`, and compiles
exactly as the unbounded `Limit (-1)` does — in particular the README query
limited to `0` compiles without any LIMIT clause. -/
theorem limit_zero_unbounded :
    (∀ q : Query, (q.Limit 0).err = q.err ∧ (q.Limit 0).limit = 0 ∧
      (q.Limit 0).toCQL = (q.Limit (-1)).toCQL) ∧
    ((queryFor tweetCodec).Limit 0).toCQL =
      ("SELECT timeline,id,text FROM tweet", [], none) := by
  constructor
  · intro q
    refine ⟨rfl, rfl, ?_⟩
    show Query.toCQL { q with limit := 0 } = Query.toCQL { q with limit := -1 }
    rcases h : getWhereClause q.codec q.filter with ⟨wc, wargs, e⟩
    cases e <;> simp [Query.toCQL, h]
  · decide

/-- When every filter's field name is mapped by the codec, the WHERE loop
renders each filter as `field op ?` and collects the bound values, both in
filter order, with no error. -/
theorem whereLoop_all_found (c : structCodec) (fs : List filter) :
    ∀ (conds : List String) (args : List Val),
      (∀ f ∈ fs, (alistGet c.byName f.FieldName).isSome) →
      whereLoop c fs conds args =
        (conds ++ fs.map (fun f => f.FieldName ++ " " ++ filterOpMapping f.Op ++ " ?"),
         args ++ fs.map filter.Value, none) := by
  induction fs with
  | nil => intro conds args _; simp [whereLoop]
  | cons f rest ih =>
    intro conds args h
    have hf := h f (by simp)
    rcases hhf : alistGet c.byName f.FieldName with _ | fc
    · rw [hhf] at hf; simp at hf
    · rw [whereLoop, hhf]
      rw [ih _ _ (fun g hg => h g (by simp [hg]))]
      simp

/-- If the filter at position `i` is the first whose field name the codec
does not map, the WHERE loop stops with the error naming that field. -/
theorem whereLoop_first_unknown (c : structCodec) (fs : List filter) :
    ∀ (i : Nat) (g : filter) (conds : List String) (args : List Val),
      fs.get? i = some g →
      alistGet c.byName g.FieldName = none →
      (∀ j, j < i → ∀ f, fs.get? j = some f →
        (alistGet c.byName f.FieldName).isSome) →
      (whereLoop c fs conds args).2.2 =
        some ("query : fieldname " ++ g.FieldName ++ " not found") := by
  induction fs with
  | nil => intro i g _ _ hi; simp at hi
  | cons f rest ih =>
    intro i g conds args hi hnone hbefore
    cases i with
    | zero =>
      simp only [List.get?] at hi
      cases hi
      rw [whereLoop, hnone]
    | succ i =>
      have hf := hbefore 0 (Nat.succ_pos i) f rfl
      rcases hhf : alistGet c.byName f.FieldName with _ | fc
      · rw [hhf] at hf; simp at hf
      · rw [whereLoop, hhf]
        exact ih i g _ _ hi hnone
          (fun j hj f' hf' => hbefore (j + 1) (Nat.succ_lt_succ hj) f' hf')

/-- C4: `Filter "age >=" v` parses into the filter `(age, ≥, v)` with no
deferred error; when every filter field is mapped, the WHERE clause renders
each filter as `field op ?` joined by ` AND ` with the bound values in
filter order, and carries the ` WHERE ` prefix exactly when at least one
filter exists; and on a fresh query over any codec mapping `age` the
compiled statement ends in ` WHERE age >= ?` with the value as the only
bound argument. -/
theorem filter_renders_and_binds :
    (∀ (q : Query) (v : Val),
      q.Filter "age >=" v =
        { q with filter := q.filter ++ [⟨"age", .greaterEq, v⟩] }) ∧
    (∀ (c : structCodec) (fs : List filter),
      (∀ f ∈ fs, (alistGet c.byName f.FieldName).isSome) →
      getWhereClause c fs =
        ((if fs = [] then "" else
           " WHERE " ++ String.intercalate " AND "
             (fs.map (fun f => f.FieldName ++ " " ++ filterOpMapping f.Op ++ " ?"))),
         fs.map filter.Value, none)) ∧
    (∀ (c : structCodec) (v : Val),
      (alistGet c.byName "age").isSome →
      ((queryFor c).Filter "age >=" v).toCQL =
        ("SELECT " ++ c.getColumnStr ++ " FROM " ++ c.columnFamily ++ " WHERE age >= ?",
         [v], none)) := by
  have hparse : ∀ (q : Query) (v : Val),
      q.Filter "age >=" v =
        { q with filter := q.filter ++ [⟨"age", .greaterEq, v⟩] } :=
    fun _ _ => rfl
  refine ⟨hparse, ?_, ?_⟩
  · intro c fs h
    cases fs with
    | nil => simp [getWhereClause]
    | cons f rest =>
      unfold getWhereClause
      rw [whereLoop_all_found c (f :: rest) [] [] h]
      simp
  · intro c v hage
    obtain ⟨fc, hfc⟩ := Option.isSome_iff_exists.mp hage
    rw [hparse]
    simp [Query.toCQL, getWhereClause, whereLoop, hfc, queryFor, filterOpMapping]
    rfl

/-- C4 witness: over the README codec extended with an `age` column,
`Filter("age >=", 30)` compiles to a statement whose WHERE clause is
`age >= ?` with `30` as the bound argument. -/
theorem filter_renders_and_binds_witness :
    ((queryFor ⟨"tweet", [⟨"age", ""⟩], [("age", ⟨0⟩)], 1⟩).Filter "age >="
        (Val.int 30)).toCQL =
      ("SELECT age FROM tweet WHERE age >= ?", [Val.int 30], none) :=
  filter_renders_and_binds.2.2 ⟨"tweet", [⟨"age", ""⟩], [("age", ⟨0⟩)], 1⟩
    (Val.int 30) (by decide)

/-- C5: if the filter at position `i` is the first one whose field name the
codec does not map, compilation produces no statement text and the error
naming that field, and `Run` returns the error-only iterator without ever
handing a statement to the driver. -/
theorem unknown_field_rejected (q : Query) (i : Nat) (g : filter)
    (hi : q.filter.get? i = some g)
    (hnone : alistGet q.codec.byName g.FieldName = none)
    (hbefore : ∀ j, j < i → ∀ f, q.filter.get? j = some f →
      (alistGet q.codec.byName f.FieldName).isSome) :
    q.toCQL.1 = "" ∧
    q.toCQL.2.2 = some ("query : fieldname " ++ g.FieldName ++ " not found") ∧
    q.Run = RunResult.fail ("query : fieldname " ++ g.FieldName ++ " not found") := by
  have hw := whereLoop_first_unknown q.codec q.filter i g [] [] hi hnone hbefore
  have hne : ¬ (q.filter.length ≤ 0) := by
    rcases List.get?_eq_some.mp hi with ⟨hlt, _⟩
    omega
  rcases hwl : whereLoop q.codec q.filter [] [] with ⟨conds, args, e⟩
  rw [hwl] at hw
  simp only at hw
  subst hw
  have hgw : getWhereClause q.codec q.filter =
      ("", args, some ("query : fieldname " ++ g.FieldName ++ " not found")) := by
    unfold getWhereClause
    rw [if_neg hne, hwl]
  have htc : q.toCQL =
      ("", args, some ("query : fieldname " ++ g.FieldName ++ " not found")) := by
    unfold Query.toCQL
    rw [hgw]
  refine ⟨by rw [htc], by rw [htc], ?_⟩
  unfold Query.Run
  rw [htc]

/-- C5 witness: `Filter("unknown_field =", 1)` over the README codec
compiles to the field-not-found error naming `unknown_field`, with no
statement text, and `Run` carries only that error. -/
theorem unknown_field_rejected_witness :
    ((queryFor tweetCodec).Filter "unknown_field =" (Val.int 1)).toCQL.1 = "" ∧
    ((queryFor tweetCodec).Filter "unknown_field =" (Val.int 1)).toCQL.2.2 =
      some "query : fieldname unknown_field not found" ∧
    ((queryFor tweetCodec).Filter "unknown_field =" (Val.int 1)).Run =
      RunResult.fail "query : fieldname unknown_field not found" :=
  unknown_field_rejected _ 0 ⟨"unknown_field", .equal, .int 1⟩ (by decide)
    (by decide) (fun j hj => absurd hj (Nat.not_lt_zero j))

/-- The mutator `Filter` only ever looks at the trimmed expression, so one may
be replaced by its trimmed form (stated for forms that trimming fixes). -/
theorem Query.Filter_trimmed (q : Query) (s : String) (v : Val) (tok : String)
    (h : TrimSpace s = tok) (htok : TrimSpace tok = tok) :
    q.Filter s v = q.Filter tok v := by
  unfold Query.Filter
  rw [h, htok]

/-- Analogue of `Query.Filter_trimmed` for `UpdateQuery.Filter`. -/
theorem updateFilter_trimmed (q : UpdateQuery) (s : String) (v : Val)
    (tok : String) (h : TrimSpace s = tok) (htok : TrimSpace tok = tok) :
    q.Filter s v = q.Filter tok v := by
  unfold UpdateQuery.Filter
  rw [h, htok]

/-- A single filter with the empty field name compiles to the field-not-found
error for the empty name when the codec does not map `""`. -/
theorem getWhereClause_empty_name (c : structCodec) (op : operator) (v : Val)
    (hc : alistGet c.byName "" = none) :
    getWhereClause c [⟨"", op, v⟩] = ("", [], some "query : fieldname  not found") := by
  unfold getWhereClause whereLoop
  rw [hc]
  rfl

/-- C9: a filter expression that trims to a bare operator token records no
deferred error on either builder — the whole token is consumed as the
operator, the field name trims to the empty string, and the filter is
appended — so over a codec that does not map the empty name the mistake
surfaces only at compile time as the field-not-found error for `""`. -/
theorem operator_only_filter (s : String) (q : Query) (uq : UpdateQuery)
    (v : Val) (c : structCodec)
    (h : TrimSpace s = "<=" ∨ TrimSpace s = ">=" ∨ TrimSpace s = "<" ∨
      TrimSpace s = ">" ∨ TrimSpace s = "=")
    (hc : alistGet c.byName "" = none) :
    (q.Filter s v).err = q.err ∧
    (uq.Filter s v).err = uq.err ∧
    (∃ op, parseOp (TrimSpace s) = some op ∧
      (q.Filter s v).filter = q.filter ++ [⟨"", op, v⟩] ∧
      (uq.Filter s v).filter = uq.filter ++ [⟨"", op, v⟩]) ∧
    ((queryFor c).Filter s v).toCQL.2.2 = some "query : fieldname  not found" := by
  rcases h with h | h | h | h | h
  · have hq' : ∀ (p : Query) (w : Val), p.Filter "<=" w =
        { p with filter := p.filter ++ [⟨"", .lessEq, w⟩] } := fun _ _ => rfl
    have huq' : ∀ (p : UpdateQuery) (w : Val), p.Filter "<=" w =
        { p with filter := p.filter ++ [⟨"", .lessEq, w⟩] } := fun _ _ => rfl
    rw [Query.Filter_trimmed q s v "<=" h (by decide),
      updateFilter_trimmed uq s v "<=" h (by decide),
      Query.Filter_trimmed (queryFor c) s v "<=" h (by decide),
      hq' q v, huq' uq v, hq' (queryFor c) v, h]
    refine ⟨rfl, rfl, ⟨.lessEq, rfl, rfl, rfl⟩, ?_⟩
    show (Query.toCQL ⟨[⟨"", .lessEq, v⟩], [], [], c, -1, none⟩).2.2 =
      some "query : fieldname  not found"
    unfold Query.toCQL
    rw [getWhereClause_empty_name c .lessEq v hc]
  · have hq' : ∀ (p : Query) (w : Val), p.Filter ">=" w =
        { p with filter := p.filter ++ [⟨"", .greaterEq, w⟩] } := fun _ _ => rfl
    have huq' : ∀ (p : UpdateQuery) (w : Val), p.Filter ">=" w =
        { p with filter := p.filter ++ [⟨"", .greaterEq, w⟩] } := fun _ _ => rfl
    rw [Query.Filter_trimmed q s v ">=" h (by decide),
      updateFilter_trimmed uq s v ">=" h (by decide),
      Query.Filter_trimmed (queryFor c) s v ">=" h (by decide),
      hq' q v, huq' uq v, hq' (queryFor c) v, h]
    refine ⟨rfl, rfl, ⟨.greaterEq, rfl, rfl, rfl⟩, ?_⟩
    show (Query.toCQL ⟨[⟨"", .greaterEq, v⟩], [], [], c, -1, none⟩).2.2 =
      some "query : fieldname  not found"
    unfold Query.toCQL
    rw [getWhereClause_empty_name c .greaterEq v hc]
  · have hq' : ∀ (p : Query) (w : Val), p.Filter "<" w =
        { p with filter := p.filter ++ [⟨"", .lessThan, w⟩] } := fun _ _ => rfl
    have huq' : ∀ (p : UpdateQuery) (w : Val), p.Filter "<" w =
        { p with filter := p.filter ++ [⟨"", .lessThan, w⟩] } := fun _ _ => rfl
    rw [Query.Filter_trimmed q s v "<" h (by decide),
      updateFilter_trimmed uq s v "<" h (by decide),
      Query.Filter_trimmed (queryFor c) s v "<" h (by decide),
      hq' q v, huq' uq v, hq' (queryFor c) v, h]
    refine ⟨rfl, rfl, ⟨.lessThan, rfl, rfl, rfl⟩, ?_⟩
    show (Query.toCQL ⟨[⟨"", .lessThan, v⟩], [], [], c, -1, none⟩).2.2 =
      some "query : fieldname  not found"
    unfold Query.toCQL
    rw [getWhereClause_empty_name c .lessThan v hc]
  · have hq' : ∀ (p : Query) (w : Val), p.Filter ">" w =
        { p with filter := p.filter ++ [⟨"", .greaterThan, w⟩] } := fun _ _ => rfl
    have huq' : ∀ (p : UpdateQuery) (w : Val), p.Filter ">" w =
        { p with filter := p.filter ++ [⟨"", .greaterThan, w⟩] } := fun _ _ => rfl
    rw [Query.Filter_trimmed q s v ">" h (by decide),
      updateFilter_trimmed uq s v ">" h (by decide),
      Query.Filter_trimmed (queryFor c) s v ">" h (by decide),
      hq' q v, huq' uq v, hq' (queryFor c) v, h]
    refine ⟨rfl, rfl, ⟨.greaterThan, rfl, rfl, rfl⟩, ?_⟩
    show (Query.toCQL ⟨[⟨"", .greaterThan, v⟩], [], [], c, -1, none⟩).2.2 =
      some "query : fieldname  not found"
    unfold Query.toCQL
    rw [getWhereClause_empty_name c .greaterThan v hc]
  · have hq' : ∀ (p : Query) (w : Val), p.Filter "=" w =
        { p with filter := p.filter ++ [⟨"", .equal, w⟩] } := fun _ _ => rfl
    have huq' : ∀ (p : UpdateQuery) (w : Val), p.Filter "=" w =
        { p with filter := p.filter ++ [⟨"", .equal, w⟩] } := fun _ _ => rfl
    rw [Query.Filter_trimmed q s v "=" h (by decide),
      updateFilter_trimmed uq s v "=" h (by decide),
      Query.Filter_trimmed (queryFor c) s v "=" h (by decide),
      hq' q v, huq' uq v, hq' (queryFor c) v, h]
    refine ⟨rfl, rfl, ⟨.equal, rfl, rfl, rfl⟩, ?_⟩
    show (Query.toCQL ⟨[⟨"", .equal, v⟩], [], [], c, -1, none⟩).2.2 =
      some "query : fieldname  not found"
    unfold Query.toCQL
    rw [getWhereClause_empty_name c .equal v hc]

/-- C9 witness: the whitespace-surrounded operator-only expression ` >= `
records no error and the mistake surfaces at compile time as the
field-not-found error for the empty name. -/
theorem operator_only_filter_witness :
    TrimSpace " >= " = ">=" ∧
    ((queryFor tweetCodec).Filter " >= " (Val.int 30)).err = none ∧
    ((queryFor tweetCodec).Filter " >= " (Val.int 30)).toCQL.2.2 =
      some "query : fieldname  not found" :=
  ⟨by decide,
   (operator_only_filter " >= " (queryFor tweetCodec) (updateQueryFor tweetCodec)
     (Val.int 30) tweetCodec (by decide) (by decide)).1,
   (operator_only_filter " >= " (queryFor tweetCodec) (updateQueryFor tweetCodec)
     (Val.int 30) tweetCodec (by decide) (by decide)).2.2.2⟩

/-- C10: once a builder's deferred error is non-nil it stays non-nil across
every mutator: each mutator either copies the error through the clone or
overwrites it with a new (still non-nil) error. -/
theorem deferred_error_sticky (q : Query) (uq : UpdateQuery) (s fn : String)
    (v : Val) (names : List String) (n ttlv : Int)
    (hq : q.err.isSome) (hu : uq.err.isSome) :
    (q.Filter s v).err.isSome ∧ (q.Order s).err.isSome ∧
    (q.Project names).err.isSome ∧ (q.Limit n).err.isSome ∧
    (uq.Filter s v).err.isSome ∧ (uq.Update fn v).err.isSome ∧
    (uq.TTL ttlv).err.isSome := by
  refine ⟨?_, ?_, ?_, ?_, ?_, ?_, ?_⟩
  · simp only [Query.Filter]
    split
    · simp
    · split <;> simp_all
  · simp only [Query.Order]
    split <;> (try split) <;> simp_all
  · exact hq
  · simp only [Query.Limit]
    split <;> simp_all
  · simp only [UpdateQuery.Filter]
    split
    · simp
    · split <;> simp_all
  · exact hu
  · exact hu

/-- C10 witness: derived builders that already carry a deferred error keep a
non-nil error after further (valid) mutator calls. -/
theorem deferred_error_sticky_witness :
    ((queryFor tweetCodec).Filter "" (Val.int 1)).err.isSome = true ∧
    (((queryFor tweetCodec).Filter "" (Val.int 1)).Limit 5).err.isSome = true ∧
    (((updateQueryFor tweetCodec).Filter "" (Val.int 1)).TTL 7).err.isSome = true :=
  ⟨by decide,
   (deferred_error_sticky ((queryFor tweetCodec).Filter "" (Val.int 1))
     ((updateQueryFor tweetCodec).Filter "" (Val.int 1)) "x" "y" (Val.int 2) [] 5 7
     (by decide) (by decide)).2.2.2.1,
   (deferred_error_sticky ((queryFor tweetCodec).Filter "" (Val.int 1))
     ((updateQueryFor tweetCodec).Filter "" (Val.int 1)) "x" "y" (Val.int 2) [] 5 7
     (by decide) (by decide)).2.2.2.2.2.2⟩

/-- Looking up the key just inserted returns the inserted value. -/
theorem alistGet_alistSet_self {α β : Type} [DecidableEq α]
    (m : List (α × β)) (k : α) (v : β) :
    alistGet (alistSet m k v) k = some v := by
  induction m with
  | nil => simp [alistSet, alistGet]
  | cons p rest ih =>
    by_cases hp : p.1 = k
    · simp [alistSet, hp, alistGet]
    · simp [alistSet, hp, alistGet, ih]

/-- C7: deriving a codec a second time returns the instance the first
derivation cached, with the cache unchanged (`getStructCodec` is
idempotent); and a failing derivation returns the cache exactly as it was,
holding no entry for the type — atomic-or-absent, never partially
populated. -/
theorem codec_cache_idempotent :
    (∀ (t : StructType) (cache : Cache) (c : structCodec) (cache' : Cache),
      getStructCodecLocked t cache = (Except.ok c, cache') →
      getStructCodecLocked t cache' = (Except.ok c, cache')) ∧
    (∀ (t : StructType) (cache : Cache) (e : String) (cache' : Cache),
      getStructCodecLocked t cache = (Except.error e, cache') →
      cache' = cache ∧ alistGet cache' t = none) := by
  constructor
  · intro t cache c cache' h
    simp only [getStructCodecLocked] at h
    split at h
    · rename_i c0 hg
      obtain ⟨h1, h2⟩ := Prod.mk.injEq .. ▸ h
      obtain rfl : c0 = c := by injection h1
      subst h2
      simp only [getStructCodecLocked]
      rw [hg]
    · rename_i hg
      split at h
      · simp at h
      · rename_i st hp
        split at h
        · simp at h
        · rename_i hcf
          obtain ⟨h1, h2⟩ := Prod.mk.injEq .. ▸ h
          obtain rfl : (⟨st.columnFamily, st.byIndex, st.byName, st.nrDBCols⟩ :
              structCodec) = c := by injection h1
          subst h2
          simp only [getStructCodecLocked]
          rw [alistGet_alistSet_self]
  · intro t cache e cache' h
    simp only [getStructCodecLocked] at h
    split at h
    · simp at h
    · rename_i hg
      split at h
      · rename_i e0 hp
        obtain ⟨h1, h2⟩ := Prod.mk.injEq .. ▸ h
        subst h2
        exact ⟨rfl, hg⟩
      · split at h
        · obtain ⟨h1, h2⟩ := Prod.mk.injEq .. ▸ h
          subst h2
          exact ⟨rfl, hg⟩
        · simp at h

/-- C7 witness: the first derivation for the README `Tweet` type on an
empty cache succeeds and populates the cache; the second derivation on the
resulting cache returns the identical codec and cache. -/
theorem codec_cache_idempotent_witness :
    getStructCodecLocked tweetType [] =
      (Except.ok tweetCodec, [(tweetType, tweetCodec)]) ∧
    getStructCodecLocked tweetType [(tweetType, tweetCodec)] =
      (Except.ok tweetCodec, [(tweetType, tweetCodec)]) :=
  ⟨rfl,
   codec_cache_idempotent.1 tweetType [] tweetCodec [(tweetType, tweetCodec)] rfl⟩

/-- A successful `processField` step appends exactly one tag to `byIndex`,
counts it in `nrDBCols` exactly when its name is not the exclusion marker,
and on a `ColumnFamily` field appends the exclusion marker. -/
theorem processField_ok (st : procState) (f : structField) (st' : procState)
    (h : processField st f = .ok st') :
    ∃ tag : structTag, st'.byIndex = st.byIndex ++ [tag] ∧
      st'.nrDBCols = st.nrDBCols + (if tag.name = "-" then 0 else 1) ∧
      (f.fName = "ColumnFamily" → tag.name = "-") := by
  simp only [processField] at h
  set nm := if (parseTag f.tag).1 = "" ∧ f.anonymous = false then f.fName
    else (parseTag f.tag).1 with hnm
  split at h
  · split at h
    · exact Except.noConfusion h
    · injection h with h
      subst h
      exact ⟨⟨"-", (parseTag f.tag).2⟩, rfl, by simp, fun _ => rfl⟩
  · rename_i hncf
    injection h with h
    subst h
    refine ⟨⟨nm, (parseTag f.tag).2⟩, rfl, ?_, fun hcf => absurd hcf hncf⟩
    by_cases hd : nm = "-" <;> simp [hd]

/-- A successful field loop appends one tag per field to `byIndex` and adds
to `nrDBCols` exactly the number of appended tags whose name is not the
exclusion marker. -/
theorem procFields_append (fs : List structField) :
    ∀ (st st' : procState), procFields fs st = .ok st' →
      ∃ suf : List structTag, st'.byIndex = st.byIndex ++ suf ∧
        st'.nrDBCols =
          st.nrDBCols + (suf.filter (fun tag => tag.name != "-")).length := by
  induction fs with
  | nil =>
    intro st st' h
    obtain rfl : st = st' := by injection h
    exact ⟨[], by simp, by simp⟩
  | cons f rest ih =>
    intro st st' h
    unfold procFields at h
    rcases hpf : processField st f with e | st₁
    · rw [hpf] at h; simp at h
    · rw [hpf] at h
      obtain ⟨suf, h1, h2⟩ := ih st₁ st' h
      obtain ⟨tag, hb, hn, _⟩ := processField_ok st f st₁ hpf
      refine ⟨tag :: suf, ?_, ?_⟩
      · rw [h1, hb, List.append_assoc]
        rfl
      · rw [h2, hn]
        by_cases ht : tag.name = "-"
        · simp [List.filter_cons, ht]
        · simp [List.filter_cons, ht]
          omega

/-- In a successful field loop, a `ColumnFamily` field at position `j` of
the remaining field list yields the exclusion marker at the corresponding
position of the final `byIndex`. -/
theorem procFields_get_cf (fs : List structField) :
    ∀ (st st' : procState) (j : Nat) (f : structField),
      procFields fs st = .ok st' →
      fs.get? j = some f →
      f.fName = "ColumnFamily" →
      ∃ opts, st'.byIndex.get? (st.byIndex.length + j) = some ⟨"-", opts⟩ := by
  induction fs with
  | nil => intro st st' j f h hj; simp at hj
  | cons f₀ rest ih =>
    intro st st' j f h hj hcf
    unfold procFields at h
    rcases hpf : processField st f₀ with e | st₁
    · rw [hpf] at h; simp at h
    · rw [hpf] at h
      cases j with
      | zero =>
        obtain rfl : f₀ = f := by injection hj
        obtain ⟨tag, hb, _, hcfname⟩ := processField_ok st f₀ st₁ hpf
        obtain ⟨suf, h1, _⟩ := procFields_append rest st₁ st' h
        refine ⟨tag.opts, ?_⟩
        have htag : tag = ⟨"-", tag.opts⟩ := by
          cases tag
          simp_all [hcfname hcf]
        rw [h1, hb, htag, List.append_assoc]
        rw [List.get?_append_right (by omega)]
        simp
      | succ j =>
        simp only [List.get?] at hj
        obtain ⟨tag, hb, _, _⟩ := processField_ok st f₀ st₁ hpf
        have hlen : st₁.byIndex.length = st.byIndex.length + 1 := by
          rw [hb]; simp
        have hidx : st.byIndex.length + (j + 1) = st₁.byIndex.length + j := by
          omega
        rw [hidx]
        exact ih st₁ st' j f h hj hcf

/-- The column loop collects exactly the names of the non-excluded tags, in
order. -/
theorem colLoop_eq (l : List structTag) :
    colLoop l = (l.filter (fun t => t.name != "-")).map structTag.name := by
  induction l with
  | nil => simp [colLoop]
  | cons t rest ih =>
    by_cases ht : t.name = "-"
    · simp [colLoop, ht, List.filter_cons, ih]
    · simp [colLoop, ht, List.filter_cons, ih]

/-- The save loop emits one placeholder and one bound value per collected
column, the value being the one `byName` assigns to that column name. -/
theorem saveLoop_spec (cls : structCLS) (l : List structTag) :
    saveLoop cls l =
      ((colLoop l).map (fun _ => "?"),
       (colLoop l).map (fun n => cls.v (byNameIndex cls.codec n))) := by
  induction l with
  | nil => simp [saveLoop, colLoop]
  | cons t rest ih =>
    by_cases ht : t.name = "-"
    · simp [saveLoop, colLoop, ht, ih]
    · simp [saveLoop, colLoop, ht, ih]

/-- C6: for every descriptor, the INSERT statement built by `save` lists
exactly the non-excluded columns in field-declaration order, emits one
placeholder per listed column from the same iteration with the same
exclusion filter, and binds as the i-th argument the value of the field the
descriptor maps the i-th listed column name to; and for a freshly derived
descriptor `nrDBCols` agrees with that filter and every `ColumnFamily`
sentinel field carries the exclusion marker, so it never appears. -/
theorem save_insert_aligned :
    (∀ cls : structCLS,
      cls.save =
        ("INSERT INTO " ++ cls.codec.columnFamily ++ " (" ++
            String.intercalate "," (colLoop cls.codec.byIndex) ++ ") VALUES (" ++
            String.intercalate "," ((colLoop cls.codec.byIndex).map (fun _ => "?")) ++
            ")",
          (colLoop cls.codec.byIndex).map
            (fun n => cls.v (byNameIndex cls.codec n))) ∧
      colLoop cls.codec.byIndex =
        (cls.codec.byIndex.filter (fun t => t.name != "-")).map structTag.name ∧
      (∀ n ∈ colLoop cls.codec.byIndex, n ≠ "-")) ∧
    (∀ (t : StructType) (cache : Cache) (c : structCodec) (cache' : Cache),
      getStructCodecLocked t cache = (Except.ok c, cache') →
      alistGet cache t = none →
      c.nrDBCols = (c.byIndex.filter (fun tag => tag.name != "-")).length ∧
      ∀ (j : Nat) (f : structField), t.get? j = some f →
        f.fName = "ColumnFamily" →
        ∃ opts, c.byIndex.get? j = some ⟨"-", opts⟩) := by
  constructor
  · intro cls
    refine ⟨?_, colLoop_eq _, ?_⟩
    · unfold structCLS.save structCodec.getColumnStr
      rw [saveLoop_spec]
    · intro n hn
      rw [colLoop_eq] at hn
      obtain ⟨tag, htag, rfl⟩ := List.mem_map.mp hn
      have := List.of_mem_filter htag
      simpa using this
  · intro t cache c cache' h hg
    simp only [getStructCodecLocked] at h
    split at h
    · rename_i c0 hsome
      rw [hg] at hsome
      exact Option.noConfusion hsome
    · split at h
      · simp at h
      · rename_i st hp
        split at h
        · simp at h
        · obtain ⟨h1, h2⟩ := Prod.mk.injEq .. ▸ h
          obtain rfl : (⟨st.columnFamily, st.byIndex, st.byName, st.nrDBCols⟩ :
              structCodec) = c := by injection h1
          constructor
          · obtain ⟨suf, hb, hn⟩ := procFields_append t _ _ hp
            simp only at hb hn ⊢
            rw [hn, hb]
            simp
          · intro j f hj hcf
            have := procFields_get_cf t _ _ j f hp hj hcf
            simpa using this

/-- C6 witness: for the README `Tweet` descriptor bound to a record whose
field values are their indices, `save` produces the INSERT statement over
exactly `timeline,id,text` with one placeholder each and the matching field
values in order, and the freshly derived descriptor counts three stored
columns. -/
theorem save_insert_aligned_witness :
    (structCLS.mk (fun i => Val.int i) tweetCodec).save =
      ("INSERT INTO tweet (timeline,id,text) VALUES (?,?,?)",
        [Val.int 1, Val.int 2, Val.int 3]) ∧
    tweetCodec.nrDBCols = 3 :=
  ⟨(save_insert_aligned.1 (structCLS.mk (fun i => Val.int i) tweetCodec)).1,
   (save_insert_aligned.2 tweetType [] tweetCodec [(tweetType, tweetCodec)]
      rfl rfl).1⟩

end Datastore
